import Mathlib

/-!
Verification of the kube-janitor decision engine (`kube_janitor/janitor.py`)
against its natural-language specification.

The embedding translates the Python source shallowly:
* machine state (annotations) becomes an association list on a `Resource`;
* the external collaborators the spec excludes (string/duration parsing,
  the current time) become fields of an `Env` record, so every theorem
  quantifies over their behaviour;
* side effects (API delete calls, event creation, annotation updates,
  sleeps, log lines) become an explicit `Effect` trace returned by each
  handler together with its counter dictionary;
* the uncaught `ValueError` that `parse_time` can raise on a malformed
  `creationTimestamp` is modelled by an `Option` result (`none` = the
  exception propagates out of the handler).
-/

set_option autoImplicit false
set_option linter.unusedVariables false

namespace Janitor

/-- A Kubernetes-style object as janitor.py sees it: kind, optional
namespace, name, annotation mapping, raw creation timestamp string,
plural endpoint, API version, resource version and uid. -/
structure Resource where
  kind : String
  ns : Option String
  name : String
  annots : List (String × String)
  creationTimestamp : String
  endpoint : String
  version : String
  resourceVersion : String
  uid : String
  deriving DecidableEq, Repr

/-- Look up an annotation key on a resource (`resource.annotations.get(key)`). -/
def lookupAnnot (r : Resource) (key : String) : Option String :=
  (r.annots.find? (fun p => p.1 == key)).map Prod.snd

/-- Python truthiness of an optional string: `None` and `""` are falsy. -/
def truthy : Option String → Option String
  | some v => if v = "" then none else some v
  | none => none

/-- `TTL_ANNOTATION = "janitor/ttl"` from janitor.py. -/
def TTL_KEY : String := "janitor/ttl"

/-- `EXPIRY_ANNOTATION = "janitor/expires"` from janitor.py. -/
def EXPIRY_KEY : String := "janitor/expires"

/-- `NOTIFIED_ANNOTATION = "janitor/notified"` from janitor.py. -/
def NOTIFIED_KEY : String := "janitor/notified"

/-- `matches_resource_filter` from janitor.py, lines 28-61: decide whether a
resource is processed, given the four configured include/exclude sets
(modelled as lists of strings). -/
def matches_resource_filter (r : Resource)
    (include_resources exclude_resources include_namespaces exclude_namespaces :
      List String) : Bool :=
  let resource_type_plural := r.endpoint
  let nsOpt : Option String := if r.kind = "Namespace" then some r.name else r.ns
  match nsOpt with
  | none => false
  | some ns =>
    let resource_included :=
      decide ("all" ∈ include_resources) ||
        decide (resource_type_plural ∈ include_resources)
    let namespace_included :=
      decide ("all" ∈ include_namespaces) || decide (ns ∈ include_namespaces)
    let resource_excluded :=
      (decide ("all" ∈ exclude_resources) &&
        !(decide (resource_type_plural ∈ include_resources))) ||
        decide (resource_type_plural ∈ exclude_resources)
    let namespace_excluded :=
      (decide ("all" ∈ exclude_namespaces) &&
        !(decide (ns ∈ include_namespaces))) ||
        decide (ns ∈ exclude_namespaces)
    resource_included && !resource_excluded && namespace_included &&
      !namespace_excluded

/-- The boolean formula of spec section 4.1, written from the spec's words
(the refinement target for the filter): inclusion via "all" or the explicit
name, exclusion via explicit name or a blanket "all" that is overridden only
by an explicit inclusion of that specific kind/namespace. -/
def spec_filter_formula (kind ns : String)
    (incR excR incN excN : List String) : Prop :=
  ("all" ∈ incR ∨ kind ∈ incR) ∧
    ¬(("all" ∈ excR ∧ kind ∉ incR) ∨ kind ∈ excR) ∧
    ("all" ∈ incN ∨ ns ∈ incN) ∧
    ¬(("all" ∈ excN ∧ ns ∉ incN) ∨ ns ∈ excN)

/-- The whole filter as spec section 4.1 describes it: a resource with a
null namespace is always rejected, except that a Namespace object uses its
own name as its namespace; otherwise the section 4.1 formula decides. -/
def spec_filter (r : Resource) (incR excR incN excN : List String) : Prop :=
  match (if r.kind = "Namespace" then some r.name else r.ns) with
  | none => False
  | some ns => spec_filter_formula r.endpoint ns incR excR incN excN

/-- The up-front guard of `clean_up` (janitor.py lines 307-309) deciding
whether the namespace branch is entered: note it tests the literal string
`"namespace"`. -/
def namespace_branch_in_scope (include_resources exclude_resources : List String) :
    Bool :=
  (decide ("all" ∈ include_resources) &&
    !(decide ("namespace" ∈ exclude_resources))) ||
    decide ("namespace" ∈ include_resources)

/-- The generic per-kind scope check of `clean_up` (janitor.py lines
358-361), applied to a kind's plural endpoint string. -/
def kind_in_scope (endpoint : String)
    (include_resources exclude_resources : List String) : Bool :=
  (decide ("all" ∈ include_resources) &&
    !(decide (endpoint ∈ exclude_resources))) ||
    decide (endpoint ∈ include_resources)

/-- Modelled from the spec: the plural endpoint string of the namespace
kind. The endpoint constant itself lives in the external pykube library
(not under the sources); the spec's glossary fixes an endpoint to be "the
plural string identifying a resource type", so the namespace kind's
endpoint is the plural "namespaces". -/
def NAMESPACE_ENDPOINT : String := "namespaces"

/-- A sample namespace object used to evaluate the filter at concrete
inputs. -/
def sampleNamespaceObj : Resource :=
  { kind := "Namespace", ns := none, name := "default", annots := [],
    creationTimestamp := "2020-01-01T00:00:00Z", endpoint := "namespaces",
    version := "v1", resourceVersion := "1", uid := "u1" }

/-- The external collaborators the spec excludes from the core: duration
and timestamp parsing (`parse_ttl`, `parse_expiry`, `parse_time` /
`strptime`, where `none` models a raised `ValueError`) and the current
time `utcnow()`. Timestamps and durations are modelled as integer
seconds. -/
structure Env where
  parseTtl : String → Option Int
  parseExpiry : String → Option Int
  parseTime : String → Option Int
  now : Int

/-- Observable side effects of one handler invocation, in order: log
lines, the `event.create()` API call, the `resource.delete()` API call,
the `resource.update()` API call writing an annotation, `time.sleep`,
and the call into `get_resource_context` (the context hook machinery). -/
inductive Effect where
  | log (msg : String)
  | eventCreate (reason msg : String) (ns : Option String) (name : String)
  | deleteCall (kind : String) (ns : Option String) (name : String)
  | updateCall (kind : String) (ns : Option String) (name : String)
      (key value : String)
  | sleepCall (seconds : Int)
  | contextLookup
  deriving DecidableEq, Repr

/-- An effect that mutates cluster state: event creation, deletion, or an
object update. Logs, sleeps and context lookups mutate nothing. -/
def Effect.isMutating : Effect → Bool
  | .eventCreate _ _ _ _ => true
  | .deleteCall _ _ _ => true
  | .updateCall _ _ _ _ _ => true
  | _ => false

/-- Counter dictionaries (`collections.Counter`): label/count pairs,
merged by summation. -/
abbrev Counter := List (String × Nat)

/-- Total count a counter dictionary assigns to one label. -/
def countOf (c : Counter) (label : String) : Nat :=
  c.foldl (fun acc p => if p.1 = label then acc + p.2 else acc) 0

/-- The per-run memoization cache the context hook may use; the engine
treats it as opaque. -/
abbrev Cache := List (String × String)

/-- The extra context mapping supplied for one resource. -/
abbrev Ctx := List (String × String)

/-- A TTL rule: identifier, TTL string, and a match predicate over
(resource, context). -/
structure Rule where
  id : String
  ttl : String
  ruleMatches : Resource → Ctx → Bool

/-- Modelled from the spec: `get_resource_context` lives in
resource_context.py, which is not among the sources; the spec describes
the context hook as an injectable function of (resource, run-scoped
cache) returning an extra context mapping. We model it as applying the
optional hook, with an empty mapping when no hook is configured. -/
def get_resource_context (r : Resource)
    (hook : Option (Resource → Cache → Ctx)) (cache : Cache) : Ctx :=
  match hook with
  | some h => h r cache
  | none => []

/-- `was_notified` from janitor.py, lines 103-104: membership of the
notified-flag KEY in the annotation mapping (the value is not inspected). -/
def was_notified (r : Resource) : Bool :=
  (lookupAnnot r NOTIFIED_KEY).isSome

/-- `get_delete_notification_time` from janitor.py, lines 87-90. -/
def get_delete_notification_time (expiry_timestamp delete_notification : Int) :
    Int :=
  expiry_timestamp - delete_notification

/-- `get_deployment_time` from janitor.py, lines 68-84: parse the creation
timestamp (an uncaught `ValueError` is `none`), then, if a deployment-time
annotation key is configured and present with a truthy value that parses,
return the max of creation and that value; a `ValueError` from parsing the
annotation value is caught and ignored. -/
def get_deployment_time (env : Env) (r : Resource)
    (deployment_time_key : Option String) : Option Int :=
  match env.parseTime r.creationTimestamp with
  | none => none
  | some creation_timestamp =>
    some
      (match truthy deployment_time_key with
        | none => creation_timestamp
        | some key =>
          match truthy (lookupAnnot r key) with
          | none => creation_timestamp
          | some deployment_time =>
            match env.parseTime deployment_time with
            | some t => max creation_timestamp t
            | none => creation_timestamp)

/-- `create_event` from janitor.py, lines 121-153: builds the event object
(pure) and issues the create API call unless in dry-run mode; a failure of
the call is caught and logged, so the call itself is the observable
effect. -/
def create_event (r : Resource) (message reason : String) (dry_run : Bool) :
    List Effect :=
  if dry_run then [] else [Effect.eventCreate reason message r.ns r.name]

/-- `add_notification_flag` from janitor.py, lines 93-100: in dry-run only
a log line; otherwise write the notified flag annotation and update the
object. -/
def add_notification_flag (r : Resource) (dry_run : Bool) : List Effect :=
  if dry_run then
    [Effect.log ("**DRY-RUN**: " ++ r.kind ++ " " ++ r.name ++
      " would be annotated as janitor/notified: yes")]
  else
    [Effect.updateCall r.kind r.ns r.name NOTIFIED_KEY "yes"]

/-- `send_delete_notification` from janitor.py, lines 111-118: log the
warning, create a DeleteNotification event, then set the notified flag. -/
def send_delete_notification (r : Resource) (reason : String) (expire : Int)
    (dry_run : Bool) : List Effect :=
  [Effect.log (r.kind ++ " " ++ r.name ++ " will be deleted at " ++
      toString expire ++ " (" ++ reason ++ ")")]
    ++ create_event r (r.kind ++ " " ++ r.name ++ " will be deleted at " ++
        toString expire ++ " (" ++ reason ++ ")") "DeleteNotification" dry_run
    ++ add_notification_flag r dry_run

/-- `delete` from janitor.py, lines 156-176: in dry-run only a log line;
otherwise the delete API call (failures are caught and logged) followed by
an optional throttling sleep. -/
def delete (r : Resource) (wait_after_delete : Int) (dry_run : Bool) :
    List Effect :=
  if dry_run then
    [Effect.log ("**DRY-RUN**: would delete " ++ r.kind ++ " " ++ r.name)]
  else
    [Effect.log ("Deleting " ++ r.kind ++ " " ++ r.name ++ ".."),
        Effect.deleteCall r.kind r.ns r.name] ++
      (if wait_after_delete > 0 then
        [Effect.log "Waiting after deletion", Effect.sleepCall wait_after_delete]
      else [])

/-- Result of the annotation/rule lookup phase of `handle_resource_on_ttl`
(janitor.py lines 191-205): the Python `ttl` variable after the phase, the
reason string, the rule-match counter entry, whether the rule branch (and
with it `get_resource_context`) was entered, and its debug log. -/
structure TtlLookup where
  ttl : Option String
  reason : String
  ruleCounter : Counter
  rulesConsulted : Bool
  logs : List Effect

/-- The annotation/rule lookup phase of `handle_resource_on_ttl`: a truthy
TTL annotation wins outright; otherwise the context is computed and the
rules are scanned in order for the first match (`break`), which supplies
its TTL string and a `rule-<id>-matches` counter entry. -/
def ttl_phase1 (r : Resource) (rules : List Rule)
    (hook : Option (Resource → Cache → Ctx)) (cache : Cache) : TtlLookup :=
  let raw := lookupAnnot r TTL_KEY
  match truthy raw with
  | some t => ⟨some t, "annotation janitor/ttl is set", [], false, []⟩
  | none =>
    let ctx := get_resource_context r hook cache
    match rules.find? (fun ru => ru.ruleMatches r ctx) with
    | some ru =>
      ⟨some ru.ttl, "rule " ++ ru.id ++ " matches",
        [("rule-" ++ ru.id ++ "-matches", 1)], true,
        [Effect.log ("Rule " ++ ru.id ++ " applies " ++ ru.ttl ++ " TTL to " ++
          r.kind ++ " " ++ r.name)]⟩
    | none => ⟨raw, "", [], true, []⟩

/-- `handle_resource_on_ttl` from janitor.py, lines 179-245. Returns the
counter dictionary and the effect trace; `none` models the uncaught
`ValueError` raised by `parse_time` on a malformed creation timestamp
(reachable only with a positive TTL). -/
def handle_resource_on_ttl (env : Env) (r : Resource) (rules : List Rule)
    (delete_notification : Int) (deployment_time_key : Option String)
    (hook : Option (Resource → Cache → Ctx)) (cache : Cache)
    (wait_after_delete : Int) (dry_run : Bool) :
    Option (Counter × List Effect) :=
  let pl := ttl_phase1 r rules hook cache
  let baseCounter : Counter := [("resources-processed", 1)] ++ pl.ruleCounter
  let baseEffs : List Effect :=
    (if pl.rulesConsulted then [Effect.contextLookup] else []) ++ pl.logs
  match truthy pl.ttl with
  | none => some (baseCounter, baseEffs)
  | some ttlStr =>
    match env.parseTtl ttlStr with
    | none =>
      some (baseCounter,
        baseEffs ++
          [Effect.log ("Ignoring invalid TTL on " ++ r.kind ++ " " ++ r.name)])
    | some ttl_seconds =>
      if ttl_seconds > 0 then
        match get_deployment_time env r deployment_time_key with
        | none => none
        | some deployment_time =>
          let c1 := baseCounter ++ [(r.endpoint ++ "-with-ttl", 1)]
          let age := env.now - deployment_time
          let ageLog := [Effect.log (r.kind ++ " " ++ r.name ++ " with " ++
            ttlStr ++ " TTL age check")]
          if age > ttl_seconds then
            let message := r.kind ++ " " ++ r.name ++ " with " ++ ttlStr ++
              " TTL will be deleted (" ++ pl.reason ++ ")"
            let evs :=
              if delete_notification ≠ 0 then
                create_event r message "TimeToLiveExpired" dry_run
              else []
            some (c1 ++ [(r.endpoint ++ "-deleted", 1)],
              baseEffs ++ ageLog ++ [Effect.log message] ++ evs ++
                delete r wait_after_delete dry_run)
          else
            if delete_notification ≠ 0 then
              let expiry_time := deployment_time + ttl_seconds
              let notification_time :=
                get_delete_notification_time expiry_time delete_notification
              if env.now > notification_time ∧ was_notified r = false then
                some (c1,
                  baseEffs ++ ageLog ++
                    send_delete_notification r pl.reason expiry_time dry_run)
              else some (c1, baseEffs ++ ageLog)
            else some (c1, baseEffs ++ ageLog)
      else some (baseCounter, baseEffs)

/-- `handle_resource_on_expiry` from janitor.py, lines 248-287. The `rules`
parameter is accepted and ignored exactly as in the source. -/
def handle_resource_on_expiry (env : Env) (r : Resource) (rules : List Rule)
    (delete_notification : Int) (wait_after_delete : Int) (dry_run : Bool) :
    Counter × List Effect :=
  match truthy (lookupAnnot r EXPIRY_KEY) with
  | none => ([], [])
  | some expiry =>
    match env.parseExpiry expiry with
    | none =>
      ([], [Effect.log ("Ignoring invalid expiry date on " ++ r.kind ++ " " ++
        r.name)])
    | some expiry_timestamp =>
      let c1 : Counter := [(r.endpoint ++ "-with-expiry", 1)]
      if env.now > expiry_timestamp then
        let message := r.kind ++ " " ++ r.name ++ " expired on " ++ expiry ++
          " and will be deleted (annotation janitor/expires is set)"
        let evs :=
          if delete_notification ≠ 0 then
            create_event r message "ExpiryTimeReached" dry_run
          else []
        (c1 ++ [(r.endpoint ++ "-deleted", 1)],
          [Effect.log message] ++ evs ++ delete r wait_after_delete dry_run)
      else
        let dbg := [Effect.log (r.kind ++ " " ++ r.name ++ " will expire on " ++
          expiry)]
        if delete_notification ≠ 0 then
          let notification_time :=
            get_delete_notification_time expiry_timestamp delete_notification
          if env.now > notification_time ∧ was_notified r = false then
            (c1,
              dbg ++ send_delete_notification r
                "annotation janitor/expires is set" expiry_timestamp dry_run)
          else (c1, dbg)
        else (c1, dbg)

/-- The per-object processing step of `clean_up` (janitor.py lines
396-413): unconditionally run the TTL handler and then the expiry handler
and merge counters and effects. `none` propagates the TTL handler's
uncaught exception. -/
def process_resource (env : Env) (r : Resource) (rules : List Rule)
    (delete_notification : Int) (deployment_time_key : Option String)
    (hook : Option (Resource → Cache → Ctx)) (cache : Cache)
    (wait_after_delete : Int) (dry_run : Bool) :
    Option (Counter × List Effect) :=
  match handle_resource_on_ttl env r rules delete_notification
      deployment_time_key hook cache wait_after_delete dry_run with
  | none => none
  | some (c1, e1) =>
    let pe := handle_resource_on_expiry env r rules delete_notification
      wait_after_delete dry_run
    some (c1 ++ pe.1, e1 ++ pe.2)

/-- The identity triple used for cross-endpoint deduplication in
`clean_up` (janitor.py line 375). -/
def objectId (r : Resource) : String × Option String × String :=
  (r.kind, r.ns, r.name)

/-- The deduplicate-then-filter loop of `clean_up` (janitor.py lines
372-390) over the concatenation of all listing results: a resource whose
identity triple was already seen is skipped outright; otherwise the triple
is recorded and the resource kept when the filter admits it. -/
def dedup_filter (incR excR incN excN : List String)
    (seen : List (String × Option String × String)) :
    List Resource → List Resource
  | [] => []
  | r :: rest =>
    if objectId r ∈ seen then dedup_filter incR excR incN excN seen rest
    else
      if matches_resource_filter r incR excR incN excN then
        r :: dedup_filter incR excR incN excN (objectId r :: seen) rest
      else dedup_filter incR excR incN excN (objectId r :: seen) rest

/-- An effect that belongs to the notification machinery: the
DeleteNotification event or a write of the notified flag. -/
def Effect.isNotify : Effect → Bool
  | .eventCreate reason _ _ _ => reason == "DeleteNotification"
  | .updateCall _ _ _ key _ => key == NOTIFIED_KEY
  | _ => false

/-- No effect in the list mutates cluster state. -/
def NoMutation (l : List Effect) : Prop :=
  ∀ e ∈ l, e.isMutating = false

/-- No effect in the list belongs to the notification machinery. -/
def NoNotify (l : List Effect) : Prop :=
  ∀ e ∈ l, e.isNotify = false

/-- A concrete environment used to evaluate the handlers at concrete
inputs: the strings "5s", "0s" parse as the durations 5 and 0, "EXP10"
parses as the timestamp 10, "T0" and "T5" parse as the timestamps 0 and
5, and the current time is 100. -/
def sampleEnv : Env where
  parseTtl s := if s = "5s" then some 5 else if s = "0s" then some 0 else none
  parseExpiry s := if s = "EXP10" then some 10 else none
  parseTime s := if s = "T0" then some 0 else if s = "T5" then some 5 else none
  now := 100

/-- A concrete namespaced resource with the given annotation list. -/
def mkResource (annots : List (String × String)) : Resource :=
  { kind := "Deployment", ns := some "default", name := "app",
    annots := annots, creationTimestamp := "T0", endpoint := "deployments",
    version := "apps/v1", resourceVersion := "1", uid := "u" }

/-- A resource with no annotations at all. -/
def rPlain : Resource := mkResource []

/-- A resource whose TTL annotation parses to the duration 0. -/
def rTtlZero : Resource := mkResource [("janitor/ttl", "0s")]

/-- A resource whose TTL annotation is present but empty. -/
def rTtlEmpty : Resource := mkResource [("janitor/ttl", "")]

/-- A resource already bearing the notified flag (with a value other than
"yes"), an elapsed TTL and a past expiry timestamp. -/
def rNotified : Resource :=
  mkResource
    [("janitor/ttl", "5s"), ("janitor/expires", "EXP10"),
      ("janitor/notified", "no")]

/-- A resource carrying only a past expiry annotation. -/
def rExpired : Resource := mkResource [("janitor/expires", "EXP10")]

/-- A resource carrying a deployment-time annotation later than its
creation timestamp. -/
def rDeploy : Resource := mkResource [("deploy-time", "T5")]

/-- A rule that always matches and applies a 5-second TTL. -/
def ruleAlways : Rule := ⟨"a", "5s", fun _ _ => true⟩

/-- A rule that always matches but carries a TTL string that does not
parse. -/
def ruleBad : Rule := ⟨"a", "bad", fun _ _ => true⟩

/-- The same underlying object as `rPlain` exposed under a second API
group/version: identical identity triple, different version string. -/
def rPlainOtherVersion : Resource :=
  { rPlain with version := "extensions/v1beta1" }

/-! ## Helper lemmas -/

theorem countOf_go (label : String) (c : Counter) : ∀ a : Nat,
    c.foldl (fun acc p => if p.1 = label then acc + p.2 else acc) a
      = a + countOf c label := by
  induction c with
  | nil => intro a; simp [countOf]
  | cons p rest ih =>
    intro a
    rw [List.foldl_cons, ih]
    have hc : countOf (p :: rest) label
        = (if p.1 = label then p.2 else 0) + countOf rest label := by
      simp only [countOf, List.foldl_cons]
      rw [ih]
      by_cases h : p.1 = label <;> simp [h, countOf]
    rw [hc]
    by_cases h : p.1 = label <;> simp [h] <;> omega

theorem countOf_nil (label : String) : countOf [] label = 0 := rfl

theorem countOf_cons (k : String) (v : Nat) (c : Counter) (label : String) :
    countOf ((k, v) :: c) label
      = (if k = label then v else 0) + countOf c label := by
  simp only [countOf, List.foldl_cons]
  rw [countOf_go]
  by_cases h : k = label <;> simp [h, countOf]

theorem countOf_append (c1 c2 : Counter) (label : String) :
    countOf (c1 ++ c2) label = countOf c1 label + countOf c2 label := by
  induction c1 with
  | nil => simp [countOf_nil]
  | cons p rest ih =>
    obtain ⟨k, v⟩ := p
    rw [List.cons_append, countOf_cons, countOf_cons, ih]
    omega

theorem getLast_data_append (p s : String) (h : s.data ≠ []) :
    (p ++ s).data.getLast? = s.data.getLast? := by
  rw [String.data_append]
  exact List.getLast?_append_of_ne_nil _ h

theorem ne_of_last_char (t u : String)
    (h : t.data.getLast? ≠ u.data.getLast?) : t ≠ u := by
  intro he
  exact h (by rw [he])

theorem ne_of_rev_take (t u : String) (n : Nat)
    (h : t.data.reverse.take n ≠ u.data.reverse.take n) : t ≠ u := by
  intro he
  exact h (by rw [he])

theorem rev_take_data_append (p s : String) (n : Nat)
    (h : n ≤ s.data.length) :
    (p ++ s).data.reverse.take n = s.data.reverse.take n := by
  rw [String.data_append, List.reverse_append,
    List.take_append_of_le_length (by simpa using h)]

theorem processed_ne_with_ttl (e : String) :
    "resources-processed" ≠ e ++ "-with-ttl" := by
  apply ne_of_rev_take _ _ 9
  rw [rev_take_data_append _ _ 9 (by decide)]
  decide

theorem processed_ne_deleted (e : String) :
    "resources-processed" ≠ e ++ "-deleted" := by
  apply ne_of_rev_take _ _ 8
  rw [rev_take_data_append _ _ 8 (by decide)]
  decide

theorem processed_ne_rule (a : String) :
    "resources-processed" ≠ "rule-" ++ a ++ "-matches" := by
  apply ne_of_rev_take _ _ 8
  rw [rev_take_data_append _ _ 8 (by decide)]
  decide

theorem rule_ne_with_ttl (a e : String) :
    "rule-" ++ a ++ "-matches" ≠ e ++ "-with-ttl" := by
  apply ne_of_rev_take _ _ 8
  rw [rev_take_data_append _ _ 8 (by decide),
    rev_take_data_append _ _ 8 (by decide)]
  decide

theorem rule_ne_deleted (a e : String) :
    "rule-" ++ a ++ "-matches" ≠ e ++ "-deleted" := by
  apply ne_of_rev_take _ _ 8
  rw [rev_take_data_append _ _ 8 (by decide),
    rev_take_data_append _ _ 8 (by decide)]
  decide

theorem with_expiry_ne_deleted (e1 e2 : String) :
    e1 ++ "-with-expiry" ≠ e2 ++ "-deleted" := by
  apply ne_of_rev_take _ _ 8
  rw [rev_take_data_append _ _ 8 (by decide),
    rev_take_data_append _ _ 8 (by decide)]
  decide

theorem with_ttl_ne_deleted (e1 e2 : String) :
    e1 ++ "-with-ttl" ≠ e2 ++ "-deleted" := by
  apply ne_of_rev_take _ _ 8
  rw [rev_take_data_append _ _ 8 (by decide),
    rev_take_data_append _ _ 8 (by decide)]
  decide

theorem rule_label_inj (a b : String)
    (h : "rule-" ++ a ++ "-matches" = "rule-" ++ b ++ "-matches") : a = b := by
  have hd := congrArg String.data h
  rw [String.data_append, String.data_append, String.data_append,
    String.data_append] at hd
  exact String.ext (List.append_cancel_left (List.append_cancel_right hd))

theorem mem_create_event (r : Resource) (m reason : String) (dry : Bool) :
    ∀ e ∈ create_event r m reason dry,
      e = Effect.eventCreate reason m r.ns r.name ∧ dry = false := by
  cases dry <;> intro e he <;> simp_all [create_event]

theorem mem_delete (r : Resource) (wad : Int) (dry : Bool) :
    ∀ e ∈ delete r wad dry,
      (∃ m, e = Effect.log m) ∨
        ((e = Effect.deleteCall r.kind r.ns r.name ∨
            ∃ s, e = Effect.sleepCall s) ∧ dry = false) := by
  cases dry <;> intro e he
  · simp only [delete, Bool.false_eq_true, if_false, List.mem_append,
      List.mem_cons, List.mem_singleton] at he
    rcases he with (h | h | h) | h
    · exact Or.inl ⟨_, h⟩
    · exact Or.inr ⟨Or.inl h, rfl⟩
    · simp at h
    · split at h
      · rcases List.mem_cons.mp h with h2 | h2
        · exact Or.inl ⟨_, h2⟩
        · simp only [List.mem_singleton] at h2
          exact Or.inr ⟨Or.inr ⟨_, h2⟩, rfl⟩
      · simp at h
  · simp only [delete, if_true, List.mem_singleton] at he
    exact Or.inl ⟨_, he⟩

theorem deleteCall_mem_delete (r : Resource) (wad : Int) :
    Effect.deleteCall r.kind r.ns r.name ∈ delete r wad false := by
  simp [delete]

theorem mem_add_notification_flag (r : Resource) (dry : Bool) :
    ∀ e ∈ add_notification_flag r dry,
      (∃ m, e = Effect.log m) ∨
        (e = Effect.updateCall r.kind r.ns r.name NOTIFIED_KEY "yes" ∧
          dry = false) := by
  cases dry <;> intro e he <;>
    simp only [add_notification_flag, if_true, Bool.false_eq_true, if_false,
      List.mem_singleton] at he
  · exact Or.inr ⟨he, rfl⟩
  · exact Or.inl ⟨_, he⟩

theorem mem_send_delete_notification (r : Resource) (reason : String)
    (expire : Int) (dry : Bool) :
    ∀ e ∈ send_delete_notification r reason expire dry,
      (∃ m, e = Effect.log m) ∨
        ((∃ m, e = Effect.eventCreate "DeleteNotification" m r.ns r.name) ∨
            e = Effect.updateCall r.kind r.ns r.name NOTIFIED_KEY "yes") ∧
          dry = false := by
  intro e he
  simp only [send_delete_notification, List.append_assoc, List.mem_append,
    List.mem_singleton] at he
  rcases he with h | h | h
  · exact Or.inl ⟨_, h⟩
  · rcases mem_create_event r _ _ dry e h with ⟨he2, hd⟩
    exact Or.inr ⟨Or.inl ⟨_, he2⟩, hd⟩
  · rcases mem_add_notification_flag r dry e h with ⟨m, hm⟩ | ⟨he2, hd⟩
    · exact Or.inl ⟨m, hm⟩
    · exact Or.inr ⟨Or.inr he2, hd⟩

theorem ttl_phase1_of_annot (r : Resource) (rules : List Rule)
    (hook : Option (Resource → Cache → Ctx)) (cache : Cache) (t : String)
    (h : truthy (lookupAnnot r TTL_KEY) = some t) :
    ttl_phase1 r rules hook cache
      = ⟨some t, "annotation janitor/ttl is set", [], false, []⟩ := by
  simp only [ttl_phase1, h]

theorem ttl_phase1_of_rule_match (r : Resource) (rules : List Rule)
    (hook : Option (Resource → Cache → Ctx)) (cache : Cache) (ru : Rule)
    (h : truthy (lookupAnnot r TTL_KEY) = none)
    (hf : rules.find?
        (fun ru2 => ru2.ruleMatches r (get_resource_context r hook cache))
      = some ru) :
    ttl_phase1 r rules hook cache
      = ⟨some ru.ttl, "rule " ++ ru.id ++ " matches",
          [("rule-" ++ ru.id ++ "-matches", 1)], true,
          [Effect.log ("Rule " ++ ru.id ++ " applies " ++ ru.ttl ++
            " TTL to " ++ r.kind ++ " " ++ r.name)]⟩ := by
  simp only [ttl_phase1, h, hf]

theorem ttl_phase1_of_no_match (r : Resource) (rules : List Rule)
    (hook : Option (Resource → Cache → Ctx)) (cache : Cache)
    (h : truthy (lookupAnnot r TTL_KEY) = none)
    (hf : rules.find?
        (fun ru2 => ru2.ruleMatches r (get_resource_context r hook cache))
      = none) :
    ttl_phase1 r rules hook cache = ⟨lookupAnnot r TTL_KEY, "", [], true, []⟩ := by
  simp only [ttl_phase1, h, hf]

theorem ttl_phase1_logs (r : Resource) (rules : List Rule)
    (hook : Option (Resource → Cache → Ctx)) (cache : Cache) :
    ∀ e ∈ (ttl_phase1 r rules hook cache).logs, ∃ m, e = Effect.log m := by
  simp only [ttl_phase1]
  cases h : truthy (lookupAnnot r TTL_KEY) with
  | some t => simp
  | none =>
    cases hf : rules.find?
        (fun ru2 => ru2.ruleMatches r (get_resource_context r hook cache)) with
    | some ru => simp [hf]
    | none => simp [hf]

theorem ttl_phase1_consulted (r : Resource) (rules : List Rule)
    (hook : Option (Resource → Cache → Ctx)) (cache : Cache) :
    (ttl_phase1 r rules hook cache).rulesConsulted
      = (truthy (lookupAnnot r TTL_KEY)).isNone := by
  simp only [ttl_phase1]
  cases h : truthy (lookupAnnot r TTL_KEY) with
  | some t => simp
  | none =>
    cases hf : rules.find?
        (fun ru2 => ru2.ruleMatches r (get_resource_context r hook cache)) with
    | some ru => simp [hf]
    | none => simp [hf]

theorem ttl_phase1_ruleCounter (r : Resource) (rules : List Rule)
    (hook : Option (Resource → Cache → Ctx)) (cache : Cache) :
    (ttl_phase1 r rules hook cache).ruleCounter = [] ∨
      ∃ ru, ru ∈ rules ∧ (ttl_phase1 r rules hook cache).ruleCounter
        = [("rule-" ++ ru.id ++ "-matches", 1)] := by
  simp only [ttl_phase1]
  cases h : truthy (lookupAnnot r TTL_KEY) with
  | some t => simp
  | none =>
    cases hf : rules.find?
        (fun ru2 => ru2.ruleMatches r (get_resource_context r hook cache)) with
    | some ru =>
      right
      exact ⟨ru, List.mem_of_find?_eq_some hf, by simp [hf]⟩
    | none => simp [hf]

theorem ttl_base_effs (r : Resource) (rules : List Rule)
    (hook : Option (Resource → Cache → Ctx)) (cache : Cache) :
    ∀ e ∈ (if (ttl_phase1 r rules hook cache).rulesConsulted then
          [Effect.contextLookup] else []) ++ (ttl_phase1 r rules hook cache).logs,
      (e = Effect.contextLookup ∧ truthy (lookupAnnot r TTL_KEY) = none) ∨
        ∃ m, e = Effect.log m := by
  intro e he
  rcases List.mem_append.mp he with h1 | h1
  · split at h1
    · left
      refine ⟨by simpa using h1, ?_⟩
      rename_i hcons
      rw [ttl_phase1_consulted] at hcons
      exact Option.isNone_iff_eq_none.mp hcons
    · simp at h1
  · exact Or.inr (ttl_phase1_logs r rules hook cache e h1)

theorem ttl_effs_cases (env : Env) (r : Resource) (rules : List Rule)
    (dn : Int) (dtKey : Option String) (hook : Option (Resource → Cache → Ctx))
    (cache : Cache) (wad : Int) (dry : Bool) (c : Counter) (effs : List Effect)
    (h : handle_resource_on_ttl env r rules dn dtKey hook cache wad dry
      = some (c, effs)) :
    ∀ e ∈ effs,
      (e = Effect.contextLookup ∧ truthy (lookupAnnot r TTL_KEY) = none) ∨
      (∃ m, e = Effect.log m) ∨
      ((∃ m, e = Effect.eventCreate "TimeToLiveExpired" m r.ns r.name) ∧
        dry = false) ∨
      (e = Effect.deleteCall r.kind r.ns r.name ∧ dry = false) ∨
      ((∃ s, e = Effect.sleepCall s) ∧ dry = false) ∨
      (was_notified r = false ∧
        ((∃ m, e = Effect.eventCreate "DeleteNotification" m r.ns r.name) ∨
          e = Effect.updateCall r.kind r.ns r.name NOTIFIED_KEY "yes") ∧
        dry = false) := by
  simp only [handle_resource_on_ttl] at h
  cases h1 : truthy (ttl_phase1 r rules hook cache).ttl with
  | none =>
    simp only [h1] at h
    obtain ⟨rfl, rfl⟩ : _ ∧ _ := by
      have := Option.some.inj h
      exact ⟨congrArg Prod.fst this, congrArg Prod.snd this⟩
    intro e he
    rcases ttl_base_effs r rules hook cache e he with h2 | h2
    · exact Or.inl h2
    · exact Or.inr (Or.inl h2)
  | some s =>
    simp only [h1] at h
    cases h2 : env.parseTtl s with
    | none =>
      simp only [h2] at h
      obtain ⟨rfl, rfl⟩ : _ ∧ _ := by
        have := Option.some.inj h
        exact ⟨congrArg Prod.fst this, congrArg Prod.snd this⟩
      intro e he
      rcases List.mem_append.mp he with h3 | h3
      · rcases ttl_base_effs r rules hook cache e h3 with h4 | h4
        · exact Or.inl h4
        · exact Or.inr (Or.inl h4)
      · simp only [List.mem_singleton] at h3
        exact Or.inr (Or.inl ⟨_, h3⟩)
    | some n =>
      simp only [h2] at h
      by_cases h3 : n > 0
      · rw [if_pos h3] at h
        cases h4 : get_deployment_time env r dtKey with
        | none =>
          simp only [h4] at h
          exact Option.noConfusion h
        | some dt =>
          simp only [h4] at h
          by_cases h5 : env.now - dt > n
          · rw [if_pos h5] at h
            obtain ⟨rfl, rfl⟩ : _ ∧ _ := by
              have := Option.some.inj h
              exact ⟨congrArg Prod.fst this, congrArg Prod.snd this⟩
            intro e he
            simp only [List.append_assoc, List.mem_append,
              List.mem_singleton] at he
            rcases he with h6 | h6 | h6 | h6 | h6 | h6
            · rcases ttl_base_effs r rules hook cache e
                  (List.mem_append.mpr (Or.inl h6)) with h7 | h7
              · exact Or.inl h7
              · exact Or.inr (Or.inl h7)
            · rcases ttl_base_effs r rules hook cache e
                  (List.mem_append.mpr (Or.inr h6)) with h7 | h7
              · exact Or.inl h7
              · exact Or.inr (Or.inl h7)
            · exact Or.inr (Or.inl ⟨_, h6⟩)
            · exact Or.inr (Or.inl ⟨_, h6⟩)
            · split at h6
              · rcases mem_create_event r _ _ dry e h6 with ⟨he2, hd⟩
                exact Or.inr (Or.inr (Or.inl ⟨⟨_, he2⟩, hd⟩))
              · simp at h6
            · rcases mem_delete r wad dry e h6 with h7 | ⟨h7 | h7, hd⟩
              · exact Or.inr (Or.inl h7)
              · exact Or.inr (Or.inr (Or.inr (Or.inl ⟨h7, hd⟩)))
              · exact Or.inr (Or.inr (Or.inr (Or.inr (Or.inl ⟨h7, hd⟩))))
          · rw [if_neg h5] at h
            by_cases h6 : dn ≠ 0
            · rw [if_pos h6] at h
              by_cases h7 : env.now >
                  get_delete_notification_time (dt + n) dn ∧
                    was_notified r = false
              · rw [if_pos h7] at h
                obtain ⟨rfl, rfl⟩ : _ ∧ _ := by
                  have := Option.some.inj h
                  exact ⟨congrArg Prod.fst this, congrArg Prod.snd this⟩
                intro e he
                simp only [List.append_assoc, List.mem_append,
                  List.mem_singleton] at he
                rcases he with h8 | h8 | h8 | h8
                · rcases ttl_base_effs r rules hook cache e
                      (List.mem_append.mpr (Or.inl h8)) with h9 | h9
                  · exact Or.inl h9
                  · exact Or.inr (Or.inl h9)
                · rcases ttl_base_effs r rules hook cache e
                      (List.mem_append.mpr (Or.inr h8)) with h9 | h9
                  · exact Or.inl h9
                  · exact Or.inr (Or.inl h9)
                · exact Or.inr (Or.inl ⟨_, h8⟩)
                · rcases mem_send_delete_notification r _ _ dry e h8 with
                    h9 | ⟨h9, hd⟩
                  · exact Or.inr (Or.inl h9)
                  · exact Or.inr (Or.inr (Or.inr (Or.inr (Or.inr
                      ⟨h7.2, h9, hd⟩))))
              · rw [if_neg h7] at h
                obtain ⟨rfl, rfl⟩ : _ ∧ _ := by
                  have := Option.some.inj h
                  exact ⟨congrArg Prod.fst this, congrArg Prod.snd this⟩
                intro e he
                rcases List.mem_append.mp he with h8 | h8
                · rcases ttl_base_effs r rules hook cache e h8 with h9 | h9
                  · exact Or.inl h9
                  · exact Or.inr (Or.inl h9)
                · simp only [List.mem_singleton] at h8
                  exact Or.inr (Or.inl ⟨_, h8⟩)
            · rw [if_neg h6] at h
              obtain ⟨rfl, rfl⟩ : _ ∧ _ := by
                have := Option.some.inj h
                exact ⟨congrArg Prod.fst this, congrArg Prod.snd this⟩
              intro e he
              rcases List.mem_append.mp he with h8 | h8
              · rcases ttl_base_effs r rules hook cache e h8 with h9 | h9
                · exact Or.inl h9
                · exact Or.inr (Or.inl h9)
              · simp only [List.mem_singleton] at h8
                exact Or.inr (Or.inl ⟨_, h8⟩)
      · rw [if_neg h3] at h
        obtain ⟨rfl, rfl⟩ : _ ∧ _ := by
          have := Option.some.inj h
          exact ⟨congrArg Prod.fst this, congrArg Prod.snd this⟩
        intro e he
        rcases ttl_base_effs r rules hook cache e he with h4 | h4
        · exact Or.inl h4
        · exact Or.inr (Or.inl h4)

theorem expiry_effs_cases (env : Env) (r : Resource) (rules : List Rule)
    (dn wad : Int) (dry : Bool) (c : Counter) (effs : List Effect)
    (h : handle_resource_on_expiry env r rules dn wad dry = (c, effs)) :
    ∀ e ∈ effs,
      (∃ m, e = Effect.log m) ∨
      ((∃ m, e = Effect.eventCreate "ExpiryTimeReached" m r.ns r.name) ∧
        dry = false) ∨
      (e = Effect.deleteCall r.kind r.ns r.name ∧ dry = false) ∨
      ((∃ s, e = Effect.sleepCall s) ∧ dry = false) ∨
      (was_notified r = false ∧
        ((∃ m, e = Effect.eventCreate "DeleteNotification" m r.ns r.name) ∨
          e = Effect.updateCall r.kind r.ns r.name NOTIFIED_KEY "yes") ∧
        dry = false) := by
  simp only [handle_resource_on_expiry] at h
  cases h1 : truthy (lookupAnnot r EXPIRY_KEY) with
  | none =>
    rw [h1] at h
    obtain ⟨rfl, rfl⟩ := Prod.mk.inj h
    intro e he
    simp at he
  | some es =>
    simp only [h1] at h
    cases h2 : env.parseExpiry es with
    | none =>
      simp only [h2] at h
      obtain ⟨rfl, rfl⟩ := Prod.mk.inj h
      intro e he
      simp only [List.mem_singleton] at he
      exact Or.inl ⟨_, he⟩
    | some ts =>
      simp only [h2] at h
      by_cases h3 : env.now > ts
      · rw [if_pos h3] at h
        obtain ⟨rfl, rfl⟩ := Prod.mk.inj h
        intro e he
        simp only [List.append_assoc, List.mem_append,
          List.mem_singleton] at he
        rcases he with h4 | h4 | h4
        · exact Or.inl ⟨_, h4⟩
        · split at h4
          · rcases mem_create_event r _ _ dry e h4 with ⟨he2, hd⟩
            exact Or.inr (Or.inl ⟨⟨_, he2⟩, hd⟩)
          · simp at h4
        · rcases mem_delete r wad dry e h4 with h5 | ⟨h5 | h5, hd⟩
          · exact Or.inl h5
          · exact Or.inr (Or.inr (Or.inl ⟨h5, hd⟩))
          · exact Or.inr (Or.inr (Or.inr (Or.inl ⟨h5, hd⟩)))
      · rw [if_neg h3] at h
        by_cases h4 : dn ≠ 0
        · rw [if_pos h4] at h
          by_cases h5 : env.now > get_delete_notification_time ts dn ∧
              was_notified r = false
          · rw [if_pos h5] at h
            obtain ⟨rfl, rfl⟩ := Prod.mk.inj h
            intro e he
            rcases List.mem_append.mp he with h6 | h6
            · simp only [List.mem_singleton] at h6
              exact Or.inl ⟨_, h6⟩
            · rcases mem_send_delete_notification r _ _ dry e h6 with
                h7 | ⟨h7, hd⟩
              · exact Or.inl h7
              · exact Or.inr (Or.inr (Or.inr (Or.inr ⟨h5.2, h7, hd⟩)))
          · rw [if_neg h5] at h
            obtain ⟨rfl, rfl⟩ := Prod.mk.inj h
            intro e he
            simp only [List.mem_singleton] at he
            exact Or.inl ⟨_, he⟩
        · rw [if_neg h4] at h
          obtain ⟨rfl, rfl⟩ := Prod.mk.inj h
          intro e he
          simp only [List.mem_singleton] at he
          exact Or.inl ⟨_, he⟩

theorem ttl_counter_dry_eq (env : Env) (r : Resource) (rules : List Rule)
    (dn : Int) (dtKey : Option String) (hook : Option (Resource → Cache → Ctx))
    (cache : Cache) (wad : Int) :
    (handle_resource_on_ttl env r rules dn dtKey hook cache wad true).map
        Prod.fst
      = (handle_resource_on_ttl env r rules dn dtKey hook cache wad false).map
        Prod.fst := by
  simp only [handle_resource_on_ttl]
  cases h1 : truthy (ttl_phase1 r rules hook cache).ttl with
  | none => rfl
  | some s =>
    simp only []
    cases h2 : env.parseTtl s with
    | none => rfl
    | some n =>
      simp only []
      by_cases h3 : n > 0
      · rw [if_pos h3, if_pos h3]
        cases h4 : get_deployment_time env r dtKey with
        | none => rfl
        | some dt =>
          simp only []
          by_cases h5 : env.now - dt > n
          · rw [if_pos h5, if_pos h5]
            rfl
          · rw [if_neg h5, if_neg h5]
            by_cases h6 : dn ≠ 0
            · rw [if_pos h6, if_pos h6]
              by_cases h7 : env.now >
                  get_delete_notification_time (dt + n) dn ∧
                    was_notified r = false
              · rw [if_pos h7, if_pos h7]
                rfl
              · rw [if_neg h7, if_neg h7]
            · rw [if_neg h6, if_neg h6]
      · rw [if_neg h3, if_neg h3]

theorem expiry_counter_dry_eq (env : Env) (r : Resource) (rules : List Rule)
    (dn wad : Int) :
    (handle_resource_on_expiry env r rules dn wad true).1
      = (handle_resource_on_expiry env r rules dn wad false).1 := by
  simp only [handle_resource_on_expiry]
  cases h1 : truthy (lookupAnnot r EXPIRY_KEY) with
  | none => rfl
  | some es =>
    simp only []
    cases h2 : env.parseExpiry es with
    | none => rfl
    | some ts =>
      simp only []
      by_cases h3 : env.now > ts
      · rw [if_pos h3, if_pos h3]
      · rw [if_neg h3, if_neg h3]
        by_cases h4 : dn ≠ 0
        · rw [if_pos h4, if_pos h4]
          by_cases h5 : env.now > get_delete_notification_time ts dn ∧
              was_notified r = false
          · rw [if_pos h5, if_pos h5]
          · rw [if_neg h5, if_neg h5]
        · rw [if_neg h4, if_neg h4]

theorem countOf_ruleCounter_other (r : Resource) (rules : List Rule)
    (hook : Option (Resource → Cache → Ctx)) (cache : Cache) (label : String)
    (h : ∀ a : String, label ≠ "rule-" ++ a ++ "-matches") :
    countOf (ttl_phase1 r rules hook cache).ruleCounter label = 0 := by
  rcases ttl_phase1_ruleCounter r rules hook cache with hc | ⟨ru, hm, hc⟩
  · rw [hc]; rfl
  · rw [hc, countOf_cons]
    simp [Ne.symm (h ru.id), countOf_nil]

theorem ttl_past_deletes (env : Env) (r : Resource) (rules : List Rule)
    (dn : Int) (dtKey : Option String) (hook : Option (Resource → Cache → Ctx))
    (cache : Cache) (wad : Int) (s : String) (n dt : Int)
    (hs : truthy (ttl_phase1 r rules hook cache).ttl = some s)
    (hp : env.parseTtl s = some n) (hpos : n > 0)
    (hdt : get_deployment_time env r dtKey = some dt)
    (hage : env.now - dt > n) :
    ∃ c effs,
      handle_resource_on_ttl env r rules dn dtKey hook cache wad false
        = some (c, effs) ∧
      Effect.deleteCall r.kind r.ns r.name ∈ effs ∧
      countOf c (r.endpoint ++ "-deleted") = 1 := by
  simp only [handle_resource_on_ttl, hs, hp, if_pos hpos, hdt, if_pos hage]
  refine ⟨_, _, rfl, ?_, ?_⟩
  · exact List.mem_append.mpr (Or.inr (deleteCall_mem_delete r wad))
  · rw [countOf_append, countOf_append, countOf_append, countOf_cons,
      countOf_cons, countOf_cons,
      countOf_ruleCounter_other r rules hook cache _
        (fun a => (rule_ne_deleted a r.endpoint).symm)]
    simp [processed_ne_deleted r.endpoint,
      with_ttl_ne_deleted r.endpoint r.endpoint, countOf_nil]

theorem expiry_past_deletes (env : Env) (r : Resource) (rules : List Rule)
    (dn wad : Int) (es : String) (ts : Int)
    (he : truthy (lookupAnnot r EXPIRY_KEY) = some es)
    (hp : env.parseExpiry es = some ts) (hnow : env.now > ts) :
    Effect.deleteCall r.kind r.ns r.name
        ∈ (handle_resource_on_expiry env r rules dn wad false).2 ∧
      countOf (handle_resource_on_expiry env r rules dn wad false).1
        (r.endpoint ++ "-deleted") = 1 := by
  simp only [handle_resource_on_expiry, he, hp, if_pos hnow]
  constructor
  · exact List.mem_append.mpr (Or.inr (deleteCall_mem_delete r wad))
  · rw [countOf_append, countOf_cons, countOf_cons]
    simp [with_expiry_ne_deleted r.endpoint r.endpoint, countOf_nil]

theorem dedup_filter_nodup_aux (incR excR incN excN : List String) :
    ∀ (rs : List Resource) (seen : List (String × Option String × String)),
      ((dedup_filter incR excR incN excN seen rs).map objectId).Nodup ∧
        ∀ t ∈ (dedup_filter incR excR incN excN seen rs).map objectId,
          t ∉ seen := by
  intro rs
  induction rs with
  | nil => intro seen; simp [dedup_filter]
  | cons r rest ih =>
    intro seen
    by_cases h1 : objectId r ∈ seen
    · simp only [dedup_filter, if_pos h1]
      exact ih seen
    · by_cases h2 : matches_resource_filter r incR excR incN excN = true
      · simp only [dedup_filter, if_neg h1, if_pos h2]
        refine ⟨?_, ?_⟩
        · simp only [List.map_cons, List.nodup_cons]
          refine ⟨?_, (ih (objectId r :: seen)).1⟩
          intro hmem
          exact ((ih (objectId r :: seen)).2 _ hmem) (List.mem_cons_self _ _)
        · intro t ht
          simp only [List.map_cons, List.mem_cons] at ht
          rcases ht with rfl | ht
          · exact h1
          · intro hseen
            exact ((ih (objectId r :: seen)).2 t ht)
              (List.mem_cons_of_mem _ hseen)
      · simp only [dedup_filter, if_neg h1, if_neg h2]
        refine ⟨(ih (objectId r :: seen)).1, ?_⟩
        intro t ht hseen
        exact ((ih (objectId r :: seen)).2 t ht) (List.mem_cons_of_mem _ hseen)

theorem dedup_filter_sound (incR excR incN excN : List String) :
    ∀ (rs : List Resource) (seen : List (String × Option String × String)),
      ∀ r ∈ dedup_filter incR excR incN excN seen rs,
        r ∈ rs ∧ matches_resource_filter r incR excR incN excN = true := by
  intro rs
  induction rs with
  | nil => intro seen r hr; simp [dedup_filter] at hr
  | cons q rest ih =>
    intro seen r hr
    simp only [dedup_filter] at hr
    split at hr
    · rcases ih seen r hr with ⟨ha, hb⟩
      exact ⟨List.mem_cons_of_mem _ ha, hb⟩
    · split at hr
      · rcases List.mem_cons.mp hr with rfl | hr2
        · rename_i hq
          exact ⟨List.mem_cons_self _ _, hq⟩
        · rcases ih _ r hr2 with ⟨ha, hb⟩
          exact ⟨List.mem_cons_of_mem _ ha, hb⟩
      · rcases ih _ r hr with ⟨ha, hb⟩
        exact ⟨List.mem_cons_of_mem _ ha, hb⟩

theorem dedup_filter_append_dup (incR excR incN excN : List String) :
    ∀ (rs : List Resource) (seen : List (String × Option String × String))
      (rdup : Resource),
      (objectId rdup ∈ rs.map objectId ∨ objectId rdup ∈ seen) →
      dedup_filter incR excR incN excN seen (rs ++ [rdup])
        = dedup_filter incR excR incN excN seen rs := by
  intro rs
  induction rs with
  | nil =>
    intro seen rdup hdup
    rcases hdup with h | h
    · simp at h
    · simp only [List.nil_append, dedup_filter, if_pos h]
  | cons q rest ih =>
    intro seen rdup hdup
    simp only [List.cons_append, dedup_filter, List.append_eq]
    by_cases h1 : objectId q ∈ seen
    · rw [if_pos h1, if_pos h1]
      apply ih
      rcases hdup with h | h
      · simp only [List.map_cons, List.mem_cons] at h
        rcases h with heq | h2
        · exact Or.inr (heq ▸ h1)
        · exact Or.inl h2
      · exact Or.inr h
    · have hdup2 : objectId rdup ∈ rest.map objectId ∨
          objectId rdup ∈ objectId q :: seen := by
        rcases hdup with h | h
        · simp only [List.map_cons, List.mem_cons] at h
          rcases h with heq | h2
          · exact Or.inr (by rw [heq]; exact List.mem_cons_self _ _)
          · exact Or.inl h2
        · exact Or.inr (List.mem_cons_of_mem _ h)
      rw [if_neg h1, if_neg h1]
      by_cases h2 : matches_resource_filter q incR excR incN excN = true
      · rw [if_pos h2, if_pos h2, ih _ _ hdup2]
      · rw [if_neg h2, if_neg h2, ih _ _ hdup2]

theorem ttl_counter_cases (env : Env) (r : Resource) (rules : List Rule)
    (dn : Int) (dtKey : Option String) (hook : Option (Resource → Cache → Ctx))
    (cache : Cache) (wad : Int) (dry : Bool) (c : Counter) (effs : List Effect)
    (h : handle_resource_on_ttl env r rules dn dtKey hook cache wad dry
      = some (c, effs)) :
    c = [("resources-processed", 1)] ++
        (ttl_phase1 r rules hook cache).ruleCounter ∨
    c = [("resources-processed", 1)] ++
        (ttl_phase1 r rules hook cache).ruleCounter ++
        [(r.endpoint ++ "-with-ttl", 1)] ∨
    c = [("resources-processed", 1)] ++
        (ttl_phase1 r rules hook cache).ruleCounter ++
        [(r.endpoint ++ "-with-ttl", 1)] ++ [(r.endpoint ++ "-deleted", 1)] := by
  simp only [handle_resource_on_ttl] at h
  cases h1 : truthy (ttl_phase1 r rules hook cache).ttl with
  | none =>
    simp only [h1] at h
    exact Or.inl (congrArg Prod.fst (Option.some.inj h)).symm
  | some s =>
    simp only [h1] at h
    cases h2 : env.parseTtl s with
    | none =>
      simp only [h2] at h
      exact Or.inl (congrArg Prod.fst (Option.some.inj h)).symm
    | some n =>
      simp only [h2] at h
      by_cases h3 : n > 0
      · rw [if_pos h3] at h
        cases h4 : get_deployment_time env r dtKey with
        | none =>
          simp only [h4] at h
          exact Option.noConfusion h
        | some dt =>
          simp only [h4] at h
          by_cases h5 : env.now - dt > n
          · rw [if_pos h5] at h
            exact Or.inr (Or.inr
              (congrArg Prod.fst (Option.some.inj h)).symm)
          · rw [if_neg h5] at h
            by_cases h6 : dn ≠ 0
            · rw [if_pos h6] at h
              by_cases h7 : env.now >
                  get_delete_notification_time (dt + n) dn ∧
                    was_notified r = false
              · rw [if_pos h7] at h
                exact Or.inr (Or.inl
                  (congrArg Prod.fst (Option.some.inj h)).symm)
              · rw [if_neg h7] at h
                exact Or.inr (Or.inl
                  (congrArg Prod.fst (Option.some.inj h)).symm)
            · rw [if_neg h6] at h
              exact Or.inr (Or.inl
                (congrArg Prod.fst (Option.some.inj h)).symm)
      · rw [if_neg h3] at h
        exact Or.inl (congrArg Prod.fst (Option.some.inj h)).symm

theorem ttl_positive_counter (env : Env) (r : Resource) (rules : List Rule)
    (dn : Int) (dtKey : Option String) (hook : Option (Resource → Cache → Ctx))
    (cache : Cache) (wad : Int) (dry : Bool) (s : String) (n : Int)
    (c : Counter) (effs : List Effect)
    (hs : truthy (ttl_phase1 r rules hook cache).ttl = some s)
    (hp : env.parseTtl s = some n) (hpos : 0 < n)
    (h : handle_resource_on_ttl env r rules dn dtKey hook cache wad dry
      = some (c, effs)) :
    c = [("resources-processed", 1)] ++
        (ttl_phase1 r rules hook cache).ruleCounter ++
        [(r.endpoint ++ "-with-ttl", 1)] ∨
    c = [("resources-processed", 1)] ++
        (ttl_phase1 r rules hook cache).ruleCounter ++
        [(r.endpoint ++ "-with-ttl", 1)] ++ [(r.endpoint ++ "-deleted", 1)] := by
  simp only [handle_resource_on_ttl, hs, hp, if_pos hpos] at h
  cases h4 : get_deployment_time env r dtKey with
  | none =>
    simp only [h4] at h
    exact Option.noConfusion h
  | some dt =>
    simp only [h4] at h
    by_cases h5 : env.now - dt > n
    · rw [if_pos h5] at h
      exact Or.inr (congrArg Prod.fst (Option.some.inj h)).symm
    · rw [if_neg h5] at h
      by_cases h6 : dn ≠ 0
      · rw [if_pos h6] at h
        by_cases h7 : env.now > get_delete_notification_time (dt + n) dn ∧
            was_notified r = false
        · rw [if_pos h7] at h
          exact Or.inl (congrArg Prod.fst (Option.some.inj h)).symm
        · rw [if_neg h7] at h
          exact Or.inl (congrArg Prod.fst (Option.some.inj h)).symm
      · rw [if_neg h6] at h
        exact Or.inl (congrArg Prod.fst (Option.some.inj h)).symm

theorem ttl_no_notify_of_notified (env : Env) (r : Resource) (rules : List Rule)
    (dn : Int) (dtKey : Option String) (hook : Option (Resource → Cache → Ctx))
    (cache : Cache) (wad : Int) (dry : Bool) (c : Counter) (effs : List Effect)
    (hn : was_notified r = true)
    (h : handle_resource_on_ttl env r rules dn dtKey hook cache wad dry
      = some (c, effs)) : NoNotify effs := by
  intro e he
  rcases ttl_effs_cases env r rules dn dtKey hook cache wad dry c effs h e he
    with ⟨he2, _⟩ | ⟨m, he2⟩ | ⟨⟨m, he2⟩, _⟩ | ⟨he2, _⟩ | ⟨⟨s2, he2⟩, _⟩ |
      ⟨hw, _, _⟩
  · subst he2; rfl
  · subst he2; rfl
  · subst he2
    simp only [Effect.isNotify]
    decide
  · subst he2; rfl
  · subst he2; rfl
  · rw [hn] at hw
    exact Bool.noConfusion hw

theorem expiry_no_notify_of_notified (env : Env) (r : Resource)
    (rules : List Rule) (dn wad : Int) (dry : Bool) (c : Counter)
    (effs : List Effect) (hn : was_notified r = true)
    (h : handle_resource_on_expiry env r rules dn wad dry = (c, effs)) :
    NoNotify effs := by
  intro e he
  rcases expiry_effs_cases env r rules dn wad dry c effs h e he
    with ⟨m, he2⟩ | ⟨⟨m, he2⟩, _⟩ | ⟨he2, _⟩ | ⟨⟨s2, he2⟩, _⟩ | ⟨hw, _, _⟩
  · subst he2; rfl
  · subst he2
    simp only [Effect.isNotify]
    decide
  · subst he2; rfl
  · subst he2; rfl
  · rw [hn] at hw
    exact Bool.noConfusion hw

theorem ttl_ctx_mem (env : Env) (r : Resource) (rules : List Rule)
    (dn : Int) (dtKey : Option String) (hook : Option (Resource → Cache → Ctx))
    (cache : Cache) (wad : Int) (dry : Bool) (c : Counter) (effs : List Effect)
    (hcons : (ttl_phase1 r rules hook cache).rulesConsulted = true)
    (h : handle_resource_on_ttl env r rules dn dtKey hook cache wad dry
      = some (c, effs)) : Effect.contextLookup ∈ effs := by
  have hbase : Effect.contextLookup ∈
      (if (ttl_phase1 r rules hook cache).rulesConsulted then
        [Effect.contextLookup] else []) ++ (ttl_phase1 r rules hook cache).logs := by
    rw [hcons]
    simp
  simp only [handle_resource_on_ttl] at h
  cases h1 : truthy (ttl_phase1 r rules hook cache).ttl with
  | none =>
    simp only [h1] at h
    obtain ⟨rfl, rfl⟩ : _ ∧ _ := by
      have hinj := Option.some.inj h
      exact ⟨congrArg Prod.fst hinj, congrArg Prod.snd hinj⟩
    exact hbase
  | some s =>
    simp only [h1] at h
    cases h2 : env.parseTtl s with
    | none =>
      simp only [h2] at h
      obtain ⟨rfl, rfl⟩ : _ ∧ _ := by
        have hinj := Option.some.inj h
        exact ⟨congrArg Prod.fst hinj, congrArg Prod.snd hinj⟩
      exact List.mem_append_left _ hbase
    | some n =>
      simp only [h2] at h
      by_cases h3 : n > 0
      · rw [if_pos h3] at h
        cases h4 : get_deployment_time env r dtKey with
        | none =>
          simp only [h4] at h
          exact Option.noConfusion h
        | some dt =>
          simp only [h4] at h
          by_cases h5 : env.now - dt > n
          · rw [if_pos h5] at h
            obtain ⟨rfl, rfl⟩ : _ ∧ _ := by
              have hinj := Option.some.inj h
              exact ⟨congrArg Prod.fst hinj, congrArg Prod.snd hinj⟩
            exact List.mem_append_left _ (List.mem_append_left _
              (List.mem_append_left _ (List.mem_append_left _ hbase)))
          · rw [if_neg h5] at h
            by_cases h6 : dn ≠ 0
            · rw [if_pos h6] at h
              by_cases h7 : env.now >
                  get_delete_notification_time (dt + n) dn ∧
                    was_notified r = false
              · rw [if_pos h7] at h
                obtain ⟨rfl, rfl⟩ : _ ∧ _ := by
                  have hinj := Option.some.inj h
                  exact ⟨congrArg Prod.fst hinj, congrArg Prod.snd hinj⟩
                exact List.mem_append_left _ (List.mem_append_left _ hbase)
              · rw [if_neg h7] at h
                obtain ⟨rfl, rfl⟩ : _ ∧ _ := by
                  have hinj := Option.some.inj h
                  exact ⟨congrArg Prod.fst hinj, congrArg Prod.snd hinj⟩
                exact List.mem_append_left _ hbase
            · rw [if_neg h6] at h
              obtain ⟨rfl, rfl⟩ : _ ∧ _ := by
                have hinj := Option.some.inj h
                exact ⟨congrArg Prod.fst hinj, congrArg Prod.snd hinj⟩
              exact List.mem_append_left _ hbase
      · rw [if_neg h3] at h
        obtain ⟨rfl, rfl⟩ : _ ∧ _ := by
          have hinj := Option.some.inj h
          exact ⟨congrArg Prod.fst hinj, congrArg Prod.snd hinj⟩
        exact hbase

/-! ## Claim theorems -/

/-- C1: the source filter agrees with the spec section 4.1 formula on every
resource and every choice of the four include/exclude sets: included (via
"all" or the explicit kind endpoint / namespace name) and not excluded,
where a blanket "all" exclusion is overridden only by an explicit
inclusion, a null-namespace resource is always rejected, and a Namespace
object uses its own name as its namespace. -/
theorem matches_resource_filter_correct (r : Resource)
    (incR excR incN excN : List String) :
    matches_resource_filter r incR excR incN excN = true ↔
      spec_filter r incR excR incN excN := by
  unfold matches_resource_filter spec_filter spec_filter_formula
  cases hns : (if r.kind = "Namespace" then some r.name else r.ns) with
  | none => simp
  | some ns =>
    by_cases h1 : "all" ∈ incR <;>
      by_cases h2 : r.endpoint ∈ incR <;>
      by_cases h3 : "all" ∈ excR <;>
      by_cases h4 : r.endpoint ∈ excR <;>
      by_cases h5 : "all" ∈ incN <;>
      by_cases h6 : ns ∈ incN <;>
      by_cases h7 : "all" ∈ excN <;>
      by_cases h8 : ns ∈ excN <;>
      simp [h1, h2, h3, h4, h5, h6, h7, h8]

/-- C2: the up-front namespace guard of `clean_up` does NOT apply the
generic kind-level rule to the namespace kind's plural endpoint: with
include-resources = `{"namespaces"}` the generic check admits the endpoint
but the branch is skipped, while the filter itself would admit a namespace
object under those sets; conversely with the singular `{"namespace"}` the
branch is entered but the filter then rejects every namespace object, so
no explicit (non-"all") inclusion token satisfies both checks. -/
theorem clean_up_namespace_guard_divergence :
    namespace_branch_in_scope ["namespaces"] [] = false ∧
      kind_in_scope NAMESPACE_ENDPOINT ["namespaces"] [] = true ∧
      matches_resource_filter sampleNamespaceObj ["namespaces"] [] ["all"] [] =
        true ∧
      namespace_branch_in_scope ["namespace"] [] = true ∧
      matches_resource_filter sampleNamespaceObj ["namespace"] [] ["all"] [] =
        false := by
  decide

/-- C5: a resource already bearing the notified flag is never notified
again by either handler (no DeleteNotification event, no flag write), in
any run and any mode, while a positive elapsed TTL or a past expiry
timestamp still leads to the delete call and the deleted counter. -/
theorem notified_suppresses_notification_not_deletion (env : Env)
    (r : Resource) (rules : List Rule) (dn : Int) (dtKey : Option String)
    (hook : Option (Resource → Cache → Ctx)) (cache : Cache) (wad : Int)
    (dry : Bool) (hn : was_notified r = true) :
    (∀ c effs, handle_resource_on_ttl env r rules dn dtKey hook cache wad dry
        = some (c, effs) → NoNotify effs) ∧
    (∀ c effs, handle_resource_on_expiry env r rules dn wad dry = (c, effs) →
      NoNotify effs) ∧
    (∀ s n dt, truthy (ttl_phase1 r rules hook cache).ttl = some s →
      env.parseTtl s = some n → 0 < n →
      get_deployment_time env r dtKey = some dt → env.now - dt > n →
      ∃ c effs,
        handle_resource_on_ttl env r rules dn dtKey hook cache wad false
          = some (c, effs) ∧
        Effect.deleteCall r.kind r.ns r.name ∈ effs ∧
        countOf c (r.endpoint ++ "-deleted") = 1) ∧
    (∀ es ts, truthy (lookupAnnot r EXPIRY_KEY) = some es →
      env.parseExpiry es = some ts → env.now > ts →
      Effect.deleteCall r.kind r.ns r.name
          ∈ (handle_resource_on_expiry env r rules dn wad false).2 ∧
      countOf (handle_resource_on_expiry env r rules dn wad false).1
        (r.endpoint ++ "-deleted") = 1) := by
  refine ⟨?_, ?_, ?_, ?_⟩
  · intro c effs hh
    exact ttl_no_notify_of_notified env r rules dn dtKey hook cache wad dry
      c effs hn hh
  · intro c effs hh
    exact expiry_no_notify_of_notified env r rules dn wad dry c effs hn hh
  · intro s n dt hs hp hpos hdt hage
    exact ttl_past_deletes env r rules dn dtKey hook cache wad s n dt hs hp
      hpos hdt hage
  · intro es ts hes hp hnow
    exact expiry_past_deletes env r rules dn wad es ts hes hp hnow

/-- C6: for every resource and configuration, the TTL and expiry handlers
return exactly the same counters under dry-run as under real mode, and in
dry-run no mutating effect (no delete call, no annotation update, no
event creation) occurs. -/
theorem dry_run_same_counters_no_mutation (env : Env) (r : Resource)
    (rules : List Rule) (dn : Int) (dtKey : Option String)
    (hook : Option (Resource → Cache → Ctx)) (cache : Cache) (wad : Int) :
    (handle_resource_on_ttl env r rules dn dtKey hook cache wad true).map
        Prod.fst
      = (handle_resource_on_ttl env r rules dn dtKey hook cache wad false).map
        Prod.fst ∧
    (handle_resource_on_expiry env r rules dn wad true).1
      = (handle_resource_on_expiry env r rules dn wad false).1 ∧
    (∀ c effs, handle_resource_on_ttl env r rules dn dtKey hook cache wad true
        = some (c, effs) → NoMutation effs) ∧
    (∀ c effs, handle_resource_on_expiry env r rules dn wad true = (c, effs) →
      NoMutation effs) := by
  refine ⟨ttl_counter_dry_eq env r rules dn dtKey hook cache wad,
    expiry_counter_dry_eq env r rules dn wad, ?_, ?_⟩
  · intro c effs hh e he
    rcases ttl_effs_cases env r rules dn dtKey hook cache wad true c effs hh
        e he with ⟨he2, _⟩ | ⟨m, he2⟩ | ⟨_, hd⟩ | ⟨_, hd⟩ | ⟨_, hd⟩ | ⟨_, _, hd⟩
    · subst he2; rfl
    · subst he2; rfl
    · exact Bool.noConfusion hd
    · exact Bool.noConfusion hd
    · exact Bool.noConfusion hd
    · exact Bool.noConfusion hd
  · intro c effs hh e he
    rcases expiry_effs_cases env r rules dn wad true c effs hh e he
      with ⟨m, he2⟩ | ⟨_, hd⟩ | ⟨_, hd⟩ | ⟨_, hd⟩ | ⟨_, _, hd⟩
    · subst he2; rfl
    · exact Bool.noConfusion hd
    · exact Bool.noConfusion hd
    · exact Bool.noConfusion hd
    · exact Bool.noConfusion hd

/-- C7: within one run's traversal of namespaced kinds, each identity
triple (kind, namespace, name) is processed at most once: the
deduplicated-and-filtered list has pairwise distinct triples, every kept
resource came from the listings and passed the filter, and appending a
listing occurrence whose triple was already yielded changes nothing —
only the first occurrence is filtered and handled. -/
theorem dedup_processes_each_identity_once (incR excR incN excN : List String)
    (rs : List Resource) :
    ((dedup_filter incR excR incN excN [] rs).map objectId).Nodup ∧
    (∀ r ∈ dedup_filter incR excR incN excN [] rs,
      r ∈ rs ∧ matches_resource_filter r incR excR incN excN = true) ∧
    (∀ rdup : Resource, objectId rdup ∈ rs.map objectId →
      dedup_filter incR excR incN excN [] (rs ++ [rdup])
        = dedup_filter incR excR incN excN [] rs) :=
  ⟨(dedup_filter_nodup_aux incR excR incN excN rs []).1,
    dedup_filter_sound incR excR incN excN rs [],
    fun rdup h =>
      dedup_filter_append_dup incR excR incN excN rs [] rdup (Or.inl h)⟩

/-- C9: the deployment-time resolver returns the maximum of the creation
timestamp and the configured annotation's timestamp when that annotation
is present, non-empty and parses; when the annotation is absent, empty or
malformed it returns the creation timestamp; when no key is configured it
returns the creation timestamp; and the result is always at least the
creation timestamp. -/
theorem get_deployment_time_correct (env : Env) (r : Resource) (key : String)
    (c : Int) (hc : env.parseTime r.creationTimestamp = some c)
    (hk : key ≠ "") :
    (∃ d, get_deployment_time env r (some key) = some d ∧ c ≤ d) ∧
    (∀ v t, lookupAnnot r key = some v → v ≠ "" → env.parseTime v = some t →
      get_deployment_time env r (some key) = some (max c t)) ∧
    (lookupAnnot r key = none →
      get_deployment_time env r (some key) = some c) ∧
    (∀ v, lookupAnnot r key = some v → v ≠ "" → env.parseTime v = none →
      get_deployment_time env r (some key) = some c) ∧
    (lookupAnnot r key = some "" →
      get_deployment_time env r (some key) = some c) ∧
    get_deployment_time env r none = some c := by
  have htk : truthy (some key) = some key := by simp [truthy, hk]
  refine ⟨?_, ?_, ?_, ?_, ?_, ?_⟩
  · simp only [get_deployment_time, hc, htk]
    cases h1 : truthy (lookupAnnot r key) with
    | none => exact ⟨c, rfl, le_refl c⟩
    | some v =>
      cases h2 : env.parseTime v with
      | none =>
        simp only [h2]
        exact ⟨c, rfl, le_refl c⟩
      | some t =>
        simp only [h2]
        exact ⟨max c t, rfl, le_max_left c t⟩
  · intro v t hv hvne hvt
    have htv : truthy (lookupAnnot r key) = some v := by
      rw [hv]; simp [truthy, hvne]
    simp only [get_deployment_time, hc, htk, htv, hvt]
  · intro hv
    have htv : truthy (lookupAnnot r key) = none := by rw [hv]; rfl
    simp only [get_deployment_time, hc, htk, htv]
  · intro v hv hvne hvt
    have htv : truthy (lookupAnnot r key) = some v := by
      rw [hv]; simp [truthy, hvne]
    simp only [get_deployment_time, hc, htk, htv, hvt]
  · intro hv
    have htv : truthy (lookupAnnot r key) = none := by
      rw [hv]; simp [truthy]
    simp only [get_deployment_time, hc, htk, htv]
  · simp only [get_deployment_time, hc]
    rfl

/-- C10: the notification-suppression check tests only the presence of the
janitor/notified annotation key — any value whatsoever (empty string,
"no", ...) makes `was_notified` true, and consequently neither handler
ever sends a notification (no DeleteNotification event, no flag write)
for such a resource. -/
theorem was_notified_key_presence (r : Resource) (v : String)
    (h : lookupAnnot r NOTIFIED_KEY = some v) :
    was_notified r = true ∧
    (∀ (env : Env) (rules : List Rule) (dn : Int) (dtKey : Option String)
        (hook : Option (Resource → Cache → Ctx)) (cache : Cache) (wad : Int)
        (dry : Bool) (c : Counter) (effs : List Effect),
      handle_resource_on_ttl env r rules dn dtKey hook cache wad dry
          = some (c, effs) → NoNotify effs) ∧
    (∀ (env : Env) (rules : List Rule) (dn wad : Int) (dry : Bool)
        (c : Counter) (effs : List Effect),
      handle_resource_on_expiry env r rules dn wad dry = (c, effs) →
        NoNotify effs) := by
  have hw : was_notified r = true := by simp [was_notified, h]
  exact ⟨hw,
    fun env rules dn dtKey hook cache wad dry c effs hh =>
      ttl_no_notify_of_notified env r rules dn dtKey hook cache wad dry c effs
        hw hh,
    fun env rules dn wad dry c effs hh =>
      expiry_no_notify_of_notified env r rules dn wad dry c effs hw hh⟩

/-- C3 counterexample: a TTL annotation parsing to the duration 0 leaves
the handler's counter without any `<kind>-with-ttl` entry — the object is
not counted as having a TTL, refuting the claim's "yet the object is
counted as having a TTL" for nonpositive durations. -/
theorem ttl_zero_not_counted_counterexample :
    handle_resource_on_ttl sampleEnv rTtlZero [] 0 none none [] 0 false
        = some ([("resources-processed", 1)], []) ∧
      countOf [("resources-processed", 1)] (rTtlZero.endpoint ++ "-with-ttl")
        = 0 := by
  constructor
  · decide
  · decide

/-- C3 (amended): a parsed TTL duration ≤ 0 disables the TTL path
entirely — the handler returns only the resources-processed counter plus
any rule-match entry, with no with-ttl entry, no deleted entry and no
mutating effect; the `<kind>-with-ttl` counter is set (to exactly 1)
precisely when the parsed TTL is positive, regardless of outcome. -/
theorem ttl_nonpositive_disabled (env : Env) (r : Resource) (rules : List Rule)
    (dn : Int) (dtKey : Option String) (hook : Option (Resource → Cache → Ctx))
    (cache : Cache) (wad : Int) (dry : Bool) (s : String) (n : Int)
    (hs : truthy (ttl_phase1 r rules hook cache).ttl = some s)
    (hp : env.parseTtl s = some n) :
    (n ≤ 0 →
      handle_resource_on_ttl env r rules dn dtKey hook cache wad dry
        = some ([("resources-processed", 1)] ++
              (ttl_phase1 r rules hook cache).ruleCounter,
            (if (ttl_phase1 r rules hook cache).rulesConsulted then
                [Effect.contextLookup] else []) ++
              (ttl_phase1 r rules hook cache).logs) ∧
      ∀ c effs,
        handle_resource_on_ttl env r rules dn dtKey hook cache wad dry
          = some (c, effs) →
        countOf c (r.endpoint ++ "-with-ttl") = 0 ∧
        countOf c (r.endpoint ++ "-deleted") = 0 ∧
        NoMutation effs) ∧
    (0 < n →
      ∀ c effs,
        handle_resource_on_ttl env r rules dn dtKey hook cache wad dry
          = some (c, effs) →
        countOf c (r.endpoint ++ "-with-ttl") = 1) := by
  constructor
  · intro hle
    have hng : ¬(n > 0) := not_lt.mpr hle
    have heq : handle_resource_on_ttl env r rules dn dtKey hook cache wad dry
        = some ([("resources-processed", 1)] ++
              (ttl_phase1 r rules hook cache).ruleCounter,
            (if (ttl_phase1 r rules hook cache).rulesConsulted then
                [Effect.contextLookup] else []) ++
              (ttl_phase1 r rules hook cache).logs) := by
      simp only [handle_resource_on_ttl, hs, hp, if_neg hng]
    refine ⟨heq, ?_⟩
    intro c effs h
    rw [heq] at h
    obtain ⟨rfl, rfl⟩ : _ ∧ _ := by
      have hinj := (Option.some.inj h).symm
      exact ⟨congrArg Prod.fst hinj, congrArg Prod.snd hinj⟩
    refine ⟨?_, ?_, ?_⟩
    · rw [countOf_append, countOf_cons, countOf_nil,
        countOf_ruleCounter_other r rules hook cache _
          (fun a => (rule_ne_with_ttl a r.endpoint).symm)]
      simp [processed_ne_with_ttl r.endpoint]
    · rw [countOf_append, countOf_cons, countOf_nil,
        countOf_ruleCounter_other r rules hook cache _
          (fun a => (rule_ne_deleted a r.endpoint).symm)]
      simp [processed_ne_deleted r.endpoint]
    · intro e he
      rcases ttl_base_effs r rules hook cache e he with ⟨he2, _⟩ | ⟨m, he2⟩
      · subst he2; rfl
      · subst he2; rfl
  · intro hpos c effs h
    rcases ttl_positive_counter env r rules dn dtKey hook cache wad dry s n
        c effs hs hp hpos h with hc | hc
    · subst hc
      rw [countOf_append, countOf_append, countOf_cons, countOf_cons,
        countOf_nil,
        countOf_ruleCounter_other r rules hook cache _
          (fun a => (rule_ne_with_ttl a r.endpoint).symm)]
      simp [processed_ne_with_ttl r.endpoint]
    · subst hc
      rw [countOf_append, countOf_append, countOf_append, countOf_cons,
        countOf_cons, countOf_cons, countOf_nil,
        countOf_ruleCounter_other r rules hook cache _
          (fun a => (rule_ne_with_ttl a r.endpoint).symm)]
      simp [processed_ne_with_ttl r.endpoint,
        (with_ttl_ne_deleted r.endpoint r.endpoint).symm]

/-- C8 counterexample: when the malformed TTL string was supplied by a
matched rule, the TTL handler's counter also contains the
`rule-<id>-matches` entry — not only resources-processed as the claim
states. -/
theorem ttl_parse_failure_rule_counter_counterexample :
    ((handle_resource_on_ttl sampleEnv rExpired [ruleBad] 0 none none [] 0
        false).map Prod.fst).getD []
      = [("resources-processed", 1), ("rule-a-matches", 1)] ∧
    countOf (((handle_resource_on_ttl sampleEnv rExpired [ruleBad] 0 none none
        [] 0 false).map Prod.fst).getD []) "rule-a-matches" = 1 := by
  constructor
  · decide
  · decide

/-- C8 (amended): TTL and expiry evaluation are independent: for every
resource both handlers run unconditionally (process_resource merges both
results), and a TTL string that fails to parse skips only the TTL path —
the TTL handler returns the resources-processed counter plus the
rule-match entry when the malformed TTL came from a matched rule, and a
valid past expiry annotation on the same object still leads to the delete
call and the deleted counter. -/
theorem ttl_parse_failure_independence (env : Env) (r : Resource)
    (rules : List Rule) (dn : Int) (dtKey : Option String)
    (hook : Option (Resource → Cache → Ctx)) (cache : Cache) (wad : Int)
    (dry : Bool) (s : String)
    (hs : truthy (ttl_phase1 r rules hook cache).ttl = some s)
    (hp : env.parseTtl s = none) :
    handle_resource_on_ttl env r rules dn dtKey hook cache wad dry
      = some ([("resources-processed", 1)] ++
            (ttl_phase1 r rules hook cache).ruleCounter,
          ((if (ttl_phase1 r rules hook cache).rulesConsulted then
              [Effect.contextLookup] else []) ++
            (ttl_phase1 r rules hook cache).logs) ++
          [Effect.log ("Ignoring invalid TTL on " ++ r.kind ++ " " ++
            r.name)]) ∧
    process_resource env r rules dn dtKey hook cache wad dry
      = some (([("resources-processed", 1)] ++
              (ttl_phase1 r rules hook cache).ruleCounter) ++
            (handle_resource_on_expiry env r rules dn wad dry).1,
          (((if (ttl_phase1 r rules hook cache).rulesConsulted then
                [Effect.contextLookup] else []) ++
              (ttl_phase1 r rules hook cache).logs) ++
            [Effect.log ("Ignoring invalid TTL on " ++ r.kind ++ " " ++
              r.name)]) ++
            (handle_resource_on_expiry env r rules dn wad dry).2) ∧
    (∀ es ts, truthy (lookupAnnot r EXPIRY_KEY) = some es →
      env.parseExpiry es = some ts → env.now > ts →
      Effect.deleteCall r.kind r.ns r.name
          ∈ (handle_resource_on_expiry env r rules dn wad false).2 ∧
      countOf (handle_resource_on_expiry env r rules dn wad false).1
        (r.endpoint ++ "-deleted") = 1) := by
  have heq : handle_resource_on_ttl env r rules dn dtKey hook cache wad dry
      = some ([("resources-processed", 1)] ++
            (ttl_phase1 r rules hook cache).ruleCounter,
          ((if (ttl_phase1 r rules hook cache).rulesConsulted then
              [Effect.contextLookup] else []) ++
            (ttl_phase1 r rules hook cache).logs) ++
          [Effect.log ("Ignoring invalid TTL on " ++ r.kind ++ " " ++
            r.name)]) := by
    simp only [handle_resource_on_ttl, hs, hp]
  refine ⟨heq, ?_, ?_⟩
  · simp only [process_resource, heq]
  · intro es ts hes hpe hnow
    exact expiry_past_deletes env r rules dn wad es ts hes hpe hnow

/-- C4 counterexample: with the TTL annotation present but empty, the
rules and the context hook ARE consulted — the handler emits the context
lookup and sets the matched rule's counter — refuting "when the TTL
annotation is present the hook and the rules are never consulted". -/
theorem ttl_empty_annot_consults_rules_counterexample :
    lookupAnnot rTtlEmpty TTL_KEY = some "" ∧
    Effect.contextLookup ∈
      ((handle_resource_on_ttl sampleEnv rTtlEmpty [ruleAlways] 0 none none []
          0 false).map Prod.snd).getD [] ∧
    countOf (((handle_resource_on_ttl sampleEnv rTtlEmpty [ruleAlways] 0 none
        none [] 0 false).map Prod.fst).getD []) "rule-a-matches" = 1 := by
  refine ⟨?_, ?_, ?_⟩
  · decide
  · decide
  · decide

/-- C4 (amended): when the TTL annotation is absent or EMPTY (Python-falsy),
rules are evaluated in list order and the first rule whose predicate holds
supplies the TTL — no earlier rule matches, only the matched rule's
`rule-<id>-matches` counter is set to 1 (no counter for other rule ids) —
and the context lookup happens exactly in this falsy-annotation case: when
the annotation is present and non-empty, neither the rules nor the context
hook are consulted and no rule counter is set. -/
theorem ttl_rule_precedence (r : Resource) (rules : List Rule)
    (hook : Option (Resource → Cache → Ctx)) (cache : Cache) :
    (∀ t, truthy (lookupAnnot r TTL_KEY) = some t →
      ttl_phase1 r rules hook cache
          = ⟨some t, "annotation janitor/ttl is set", [], false, []⟩ ∧
      ∀ (env : Env) (dn : Int) (dtKey : Option String) (wad : Int)
          (dry : Bool) (c : Counter) (effs : List Effect),
        handle_resource_on_ttl env r rules dn dtKey hook cache wad dry
            = some (c, effs) →
          Effect.contextLookup ∉ effs ∧
          ∀ ru ∈ rules, countOf c ("rule-" ++ ru.id ++ "-matches") = 0) ∧
    (truthy (lookupAnnot r TTL_KEY) = none →
      (∀ ru, rules.find?
            (fun ru2 => ru2.ruleMatches r (get_resource_context r hook cache))
          = some ru →
        (ttl_phase1 r rules hook cache).ttl = some ru.ttl ∧
        (ttl_phase1 r rules hook cache).ruleCounter
            = [("rule-" ++ ru.id ++ "-matches", 1)] ∧
        ru.ruleMatches r (get_resource_context r hook cache) = true ∧
        (∃ l1 l2, rules = l1 ++ ru :: l2 ∧
          ∀ ru2 ∈ l1,
            ru2.ruleMatches r (get_resource_context r hook cache) = false) ∧
        countOf (ttl_phase1 r rules hook cache).ruleCounter
            ("rule-" ++ ru.id ++ "-matches") = 1 ∧
        ∀ ru2 ∈ rules, ru2.id ≠ ru.id →
          countOf (ttl_phase1 r rules hook cache).ruleCounter
            ("rule-" ++ ru2.id ++ "-matches") = 0) ∧
      ((rules.find?
            (fun ru2 => ru2.ruleMatches r (get_resource_context r hook cache))
          = none) →
        (ttl_phase1 r rules hook cache).ruleCounter = []) ∧
      ∀ (env : Env) (dn : Int) (dtKey : Option String) (wad : Int)
          (dry : Bool) (c : Counter) (effs : List Effect),
        handle_resource_on_ttl env r rules dn dtKey hook cache wad dry
            = some (c, effs) →
          Effect.contextLookup ∈ effs) := by
  constructor
  · intro t ht
    have hph := ttl_phase1_of_annot r rules hook cache t ht
    refine ⟨hph, ?_⟩
    intro env dn dtKey wad dry c effs h
    constructor
    · intro hmem
      rcases ttl_effs_cases env r rules dn dtKey hook cache wad dry c effs h
          Effect.contextLookup hmem with ⟨_, hnone⟩ | ⟨m, he2⟩ | ⟨⟨m, he2⟩, _⟩ |
          ⟨he2, _⟩ | ⟨⟨s2, he2⟩, _⟩ | ⟨_, he2 | he2, _⟩
      · rw [ht] at hnone
        exact Option.noConfusion hnone
      · exact Effect.noConfusion he2
      · exact Effect.noConfusion he2
      · exact Effect.noConfusion he2
      · exact Effect.noConfusion he2
      · rcases he2 with ⟨m, he3⟩
        exact Effect.noConfusion he3
      · exact Effect.noConfusion he2
    · intro ru hru
      rcases ttl_counter_cases env r rules dn dtKey hook cache wad dry c effs h
        with hc | hc | hc <;> subst hc <;>
        rw [hph] <;>
        simp [countOf_append, countOf_cons, countOf_nil,
          processed_ne_rule ru.id, (rule_ne_with_ttl ru.id r.endpoint).symm,
          (rule_ne_deleted ru.id r.endpoint).symm]
  · intro ht
    refine ⟨?_, ?_, ?_⟩
    · intro ru hf
      have hph := ttl_phase1_of_rule_match r rules hook cache ru ht hf
      rcases List.find?_eq_some.mp hf with ⟨hmatch, l1, l2, heq, hprev⟩
      refine ⟨by rw [hph], by rw [hph], hmatch, ⟨l1, l2, heq, ?_⟩, ?_, ?_⟩
      · intro ru2 hru2
        have := hprev ru2 hru2
        simpa using this
      · rw [hph, countOf_cons, countOf_nil]
        simp
      · intro ru2 hru2 hne
        rw [hph, countOf_cons, countOf_nil]
        have : ¬("rule-" ++ ru.id ++ "-matches"
            = "rule-" ++ ru2.id ++ "-matches") := by
          intro hcontra
          exact hne (rule_label_inj ru.id ru2.id hcontra).symm
        simp [this]
    · intro hf
      rw [ttl_phase1_of_no_match r rules hook cache ht hf]
    · intro env dn dtKey wad dry c effs h
      apply ttl_ctx_mem env r rules dn dtKey hook cache wad dry c effs _ h
      rw [ttl_phase1_consulted, ht]
      rfl

/-! ## Witnesses -/

/-- Witness for C3: at a concrete resource whose TTL annotation parses to
0, the handler returns only the resources-processed counter. -/
theorem ttl_nonpositive_disabled_witness :
    handle_resource_on_ttl sampleEnv rTtlZero [] 0 none none [] 0 false
      = some ([("resources-processed", 1)] ++
            (ttl_phase1 rTtlZero [] none []).ruleCounter,
          (if (ttl_phase1 rTtlZero [] none []).rulesConsulted then
              [Effect.contextLookup] else []) ++
            (ttl_phase1 rTtlZero [] none []).logs) :=
  ((ttl_nonpositive_disabled sampleEnv rTtlZero [] 0 none none [] 0 false
      "0s" 0 (by decide) (by decide)).1 (by decide)).1

/-- Witness for C4: at a concrete resource whose TTL annotation is "0s"
(truthy), the lookup phase returns the annotation verbatim and consults
no rule. -/
theorem ttl_rule_precedence_witness :
    ttl_phase1 rTtlZero [ruleAlways] none []
      = ⟨some "0s", "annotation janitor/ttl is set", [], false, []⟩ :=
  ((ttl_rule_precedence rTtlZero [ruleAlways] none []).1 "0s" (by decide)).1

/-- Witness for C5: a concrete already-notified resource past its expiry
timestamp is still deleted by the expiry handler. -/
theorem notified_suppresses_witness :
    Effect.deleteCall rNotified.kind rNotified.ns rNotified.name
        ∈ (handle_resource_on_expiry sampleEnv rNotified [] 0 0 false).2 ∧
    countOf (handle_resource_on_expiry sampleEnv rNotified [] 0 0 false).1
      (rNotified.endpoint ++ "-deleted") = 1 :=
  (notified_suppresses_notification_not_deletion sampleEnv rNotified [] 0 none
    none [] 0 false (by decide)).2.2.2 "EXP10" 10 (by decide) (by decide)
    (by decide)

/-- Witness for C6: at a concrete resource the dry-run TTL counters equal
the real-mode counters and the dry-run effects contain no mutation. -/
theorem dry_run_witness :
    (handle_resource_on_ttl sampleEnv rPlain [] 0 none none [] 0 true).map
        Prod.fst
      = (handle_resource_on_ttl sampleEnv rPlain [] 0 none none [] 0
          false).map Prod.fst ∧
    NoMutation [Effect.contextLookup] :=
  ⟨(dry_run_same_counters_no_mutation sampleEnv rPlain [] 0 none none [] 0).1,
    (dry_run_same_counters_no_mutation sampleEnv rPlain [] 0 none none []
      0).2.2.1 [("resources-processed", 1)] [Effect.contextLookup] (by decide)⟩

/-- Witness for C7: appending a second listing of the same object under
another API version leaves the deduplicated list unchanged. -/
theorem dedup_witness :
    dedup_filter ["all"] [] ["all"] [] [] ([rPlain] ++ [rPlainOtherVersion])
      = dedup_filter ["all"] [] ["all"] [] [] [rPlain] :=
  (dedup_processes_each_identity_once ["all"] [] ["all"] [] [rPlain]).2.2
    rPlainOtherVersion (by decide)

/-- Witness for C8: at a concrete resource whose matched rule carries an
unparseable TTL, the expiry path still deletes the object. -/
theorem ttl_parse_failure_witness :
    Effect.deleteCall rExpired.kind rExpired.ns rExpired.name
        ∈ (handle_resource_on_expiry sampleEnv rExpired [ruleBad] 0 0
          false).2 :=
  ((ttl_parse_failure_independence sampleEnv rExpired [ruleBad] 0 none none
      [] 0 false "bad" (by decide) (by decide)).2.2 "EXP10" 10 (by decide)
    (by decide) (by decide)).1

/-- Witness for C9: a concrete resource with a deployment-time annotation
later than creation resolves to the maximum of the two timestamps. -/
theorem get_deployment_time_witness :
    get_deployment_time sampleEnv rDeploy (some "deploy-time")
      = some (max 0 5) :=
  (get_deployment_time_correct sampleEnv rDeploy "deploy-time" 0 (by decide)
    (by decide)).2.1 "T5" 5 (by decide) (by decide) (by decide)

/-- Witness for C10: a concrete resource carrying the notified key with
value "no" counts as already notified. -/
theorem was_notified_key_presence_witness :
    was_notified rNotified = true :=
  (was_notified_key_presence rNotified "no" (by decide)).1

end Janitor
